import Mathlib

/-
Verification of the xcsh documentation generator's command-tree synthesis,
categorization and navigation engine (scripts/generate-docs.py, scripts/naming.py).

The Python source is shallowly embedded: Python dicts become insertion-ordered
association lists (Python 3.7+ dicts preserve insertion order), `sorted` becomes
a stable insertion sort over a boolean `le` (any two stable sorts w.r.t. a total
preorder on keys agree extensionally), and mutation becomes explicit state passing.
-/

set_option maxRecDepth 4000

namespace Xcsh

/-! ## Generic association-list (Python dict) and stable-sort helpers -/

/-- Lookup in an insertion-ordered association list (Python `d[k]` / `k in d`). -/
def alookup {β : Type} : List (String × β) → String → Option β
  | [], _ => none
  | (k, v) :: rest, key => if k = key then some v else alookup rest key

/-- Update in place if the key exists (keeping its position), else append at the
end: the semantics of `d[k] = v` on a Python dict. -/
def dictSet {β : Type} : List (String × β) → String → β → List (String × β)
  | [], key, v => [(key, v)]
  | (k, w) :: rest, key, v =>
    if k = key then (k, v) :: rest else (k, w) :: dictSet rest key v

/-- Append `v` to the list stored at `key`, creating an empty bucket first when
absent: models `if k not in d: d[k] = []` followed by `d[k].append(v)`. -/
def dictAppend {β : Type} : List (String × List β) → String → β → List (String × List β)
  | [], key, v => [(key, [v])]
  | (k, l) :: rest, key, v =>
    if k = key then (k, l ++ [v]) :: rest else (k, l) :: dictAppend rest key v

/-- Insert `a` into `l` before the first element `y` with `le a y`; the building
block of the stable sort below. -/
def insertLe {α : Type} (le : α → α → Bool) (a : α) : List α → List α
  | [] => [a]
  | y :: ys => if le a y then a :: y :: ys else y :: insertLe le a ys

/-- Stable insertion sort: extensionally equal to Python's stable `sorted` for a
total preorder `le` (both are stable sorts, and stable sorting is unique). -/
def isort {α : Type} (le : α → α → Bool) : List α → List α
  | [] => []
  | x :: xs => insertLe le x (isort le xs)

/-! ## Python string helpers (code-point / ASCII semantics over `List Char`) -/

/-- Python `s.lower()` on the ASCII alphabet. -/
def pyLower (s : String) : String := String.mk (s.toList.map Char.toLower)

/-- Python `s.upper()` on the ASCII alphabet. -/
def pyUpper (s : String) : String := String.mk (s.toList.map Char.toUpper)

/-- Substring containment over char lists: Python `pat in hay`. -/
def containsSub : List Char → List Char → Bool
  | hay, pat =>
    match hay with
    | [] => pat.isEmpty
    | _ :: t => pat.isPrefixOf hay || containsSub t pat

/-- Python `hay.startswith(pat)`. -/
def strStartsWith (hay pat : String) : Bool := pat.toList.isPrefixOf hay.toList

/-- Python `pat in hay` on strings. -/
def strContains (hay pat : String) : Bool := containsSub hay.toList pat.toList

/-- Left-to-right non-overlapping deletion of every occurrence of `pat`; the
counter drops the remaining characters of a match already recognized, so that
scanning resumes right after the match, exactly like Python `str.replace`. -/
def removeAllAux (pat : List Char) : List Char → Nat → List Char
  | [], _ => []
  | c :: rest, 0 =>
    if pat ≠ [] ∧ pat.isPrefixOf (c :: rest) then removeAllAux pat rest (pat.length - 1)
    else c :: removeAllAux pat rest 0
  | _ :: rest, skip + 1 => removeAllAux pat rest skip

/-- The char-list core of Python `s.replace(pat, "")`. -/
def removeAllSub (pat l : List Char) : List Char := removeAllAux pat l 0

/-- Python `s.replace(pat, "")`: removes every occurrence, scanning left to
right without rescanning removed text. -/
def pyReplaceEmpty (s pat : String) : String :=
  String.mk (removeAllSub pat.toList s.toList)

/-- Code-point lexicographic comparison of char lists, the order Python uses
to compare strings. -/
def charsLe : List Char → List Char → Bool
  | [], _ => true
  | _ :: _, [] => false
  | a :: as, b :: bs => if a = b then charsLe as bs else decide (a < b)

/-- Python string `<=`: code-point lexicographic order. -/
def strLe (a b : String) : Bool := charsLe a.toList b.toList

/-- Split a char list into maximal whitespace-free words, dropping empties:
Python `s.split()` with no argument. The first accumulator argument is the
current word, reversed. -/
def splitW : List Char → List Char → List (List Char)
  | [], cur => if cur = [] then [] else [cur.reverse]
  | c :: cs, cur =>
    if c.isWhitespace then
      if cur = [] then splitW cs [] else cur.reverse :: splitW cs []
    else
      splitW cs (c :: cur)

/-! ## naming.py: human-readable display names -/

/-- Acronyms rendered fully uppercase (naming.UPPERCASE_ACRONYMS). -/
def UPPERCASE_ACRONYMS : List String :=
  ["DNS", "HTTP", "HTTPS", "TCP", "UDP", "TLS", "SSL", "SSH", "FTP", "SFTP",
   "SMTP", "IMAP", "POP", "LDAP", "DHCP", "ARP", "ICMP", "SNMP", "NTP", "SIP",
   "RTP", "RTSP", "QUIC", "IP", "GRPC", "API", "URL", "URI", "REST", "SOAP",
   "JSON", "XML", "HTML", "CSS", "CORS", "CDN", "WAF", "JWT", "SAML", "VPN",
   "NAT", "VLAN", "BGP", "OSPF", "QOS", "MTU", "TTL", "ACL", "CIDR", "VIP",
   "LB", "HA", "DR", "PKI", "CA", "CSR", "CRL", "OCSP", "PEM", "AES", "RSA",
   "SHA", "MD5", "HMAC", "MFA", "SSO", "RBAC", "IAM", "DDOS", "DOS", "XSS",
   "CSRF", "SQL", "AWS", "GCP", "CPU", "RAM", "SSD", "HDD", "GPU", "RAID",
   "VM", "OS", "SLA", "RPO", "RTO", "VPC", "VNET", "TGW", "IKE", "ID", "SLI",
   "S2S", "RE", "CE", "SPO", "SMG", "APM", "PII", "OIDC", "K8S", "ASM", "LTM",
   "GTM", "CNE", "XC", "SSLO", "AFM", "AVR", "ASN", "SEC", "RPC"]

/-- Acronyms with fixed mixed-case renderings (naming.MIXED_CASE_ACRONYMS). -/
def MIXED_CASE_ACRONYMS : List (String × String) :=
  [("mtls", "mTLS"), ("oauth", "OAuth"), ("graphql", "GraphQL"),
   ("websocket", "WebSocket"), ("iscsi", "iSCSI"), ("ipv4", "IPv4"),
   ("ipv6", "IPv6"), ("macos", "macOS"), ("ios", "iOS"), ("nosql", "NoSQL"),
   ("bigip", "BIG-IP"), ("irule", "iRule")]

/-- Compound words split for display (naming.COMPOUND_WORDS_HUMAN_READABLE). -/
def COMPOUND_WORDS_HUMAN_READABLE : List (String × String) :=
  [("loadbalancer", "Load Balancer"), ("bigip", "BIG-IP"),
   ("websocket", "WebSocket"), ("fastcgi", "FastCGI"),
   ("originpool", "Origin Pool"), ("healthcheck", "Health Check"),
   ("servicepolicy", "Service Policy"), ("apiendpoint", "API Endpoint"),
   ("apidefinition", "API Definition"), ("apisecurity", "API Security")]

/-- Python `part[0].upper() + part[1:].lower()`. -/
def capFirstLowerRest (w : List Char) : String :=
  match w with
  | [] => ""
  | c :: cs => String.mk (c.toUpper :: cs.map Char.toLower)

/-- Render one whitespace-free word of a name, per naming.to_human_readable's
four-way branch (uppercase acronym, compound word, mixed-case acronym, title). -/
def renderPart (w : List Char) : String :=
  let part := String.mk w
  if UPPERCASE_ACRONYMS.contains (pyUpper part) then pyUpper part
  else
    match alookup COMPOUND_WORDS_HUMAN_READABLE (pyLower part) with
    | some v => v
    | none =>
      match alookup MIXED_CASE_ACRONYMS (pyLower part) with
      | some v => v
      | none => capFirstLowerRest w

/-- naming.to_human_readable: normalize `_` and `-` to spaces, split into
words, render each word, join with single spaces. -/
def to_human_readable (s : String) : String :=
  if s = "" then ""
  else
    let replaced := s.toList.map (fun c => if c = '_' ∨ c = '-' then ' ' else c)
    String.intercalate " " ((splitW replaced []).map renderPart)

/-! ## Data model: Flag, Command, CommandTree (generate-docs.py) -/

/-- A CLI flag descriptor (class Flag). Inert for the verified algorithms. -/
structure Flag where
  name : String
  type : String
  description : String
  shorthand : String
  default : String
deriving DecidableEq

/-- A CLI command descriptor (class Command): path segments, texts, aliases,
flags and nested sub-descriptors. Field order matches the Python dataclass. -/
inductive Command where
  | mk : List String → String → String → String → String → List String →
         List Flag → List Command → Command

/-- The `path` field of a Command. -/
def Command.path : Command → List String
  | .mk p _ _ _ _ _ _ _ => p

/-- The `use` field of a Command. -/
def Command.use : Command → String
  | .mk _ u _ _ _ _ _ _ => u

/-- The `short` field of a Command. -/
def Command.short : Command → String
  | .mk _ _ s _ _ _ _ _ => s

/-- The `subcommands` field of a Command. -/
def Command.subcommands : Command → List Command
  | .mk _ _ _ _ _ _ _ subs => subs

/-- A node of the hierarchical command tree (class CommandTree): name, optional
command, and an insertion-ordered child map keyed by next path segment. -/
inductive CommandTree where
  | mk : String → Option Command → List (String × CommandTree) → CommandTree

/-- The `name` field of a CommandTree node. -/
def CommandTree.name : CommandTree → String
  | .mk n _ _ => n

/-- The `command` field of a CommandTree node. -/
def CommandTree.command : CommandTree → Option Command
  | .mk _ c _ => c

/-- The `children` field of a CommandTree node. -/
def CommandTree.children : CommandTree → List (String × CommandTree)
  | .mk _ _ ch => ch

/-- The path walk of CommandTree.add_command: descend along `path` creating
missing children (fresh nodes carry no command), then assign `cmd` at the node
reached at the end of the full path. -/
def insertPath : CommandTree → List String → Command → CommandTree
  | .mk n _ ch, [], cmd => .mk n (some cmd) ch
  | .mk n c ch, p :: ps, cmd =>
    let child := (alookup ch p).getD (.mk p none [])
    .mk n c (dictSet ch p (insertPath child ps cmd))

mutual

/-- CommandTree.add_command: place `cmd` at its full path, then recursively
insert every entry of `cmd.subcommands` into the same (root) tree. -/
def add_command : CommandTree → Command → CommandTree
  | t, .mk p u s l e a f subs =>
    addSubs (insertPath t p (.mk p u s l e a f subs)) subs

/-- The `for subcmd in cmd.subcommands: self.add_command(subcmd)` loop. -/
def addSubs : CommandTree → List Command → CommandTree
  | t, [] => t
  | t, c :: cs => addSubs (add_command t c) cs

end

/-- Follow a segment sequence through the tree's child maps. -/
def findNode : CommandTree → List String → Option CommandTree
  | t, [] => some t
  | t, p :: ps =>
    match alookup t.children p with
    | some child => findNode child ps
    | none => none

/-- The command stored at the node reached by `path`, if any. -/
def commandAt (t : CommandTree) (path : List String) : Option Command :=
  (findNode t path).bind CommandTree.command

/-! ## Canonical action order and sort_actions (generate-docs.py) -/

/-- Canonical action order for consistent display (ACTION_ORDER). -/
def ACTION_ORDER : List String :=
  ["list", "get", "create", "delete", "replace",
   "apply", "patch", "status", "add-labels", "remove-labels"]

/-- Zero-based position of `a` in a list, if present; models lookup in the
Python dict comprehension mapping each action to its index. -/
def idxIn : List String → String → Option Nat
  | [], _ => none
  | x :: xs, a => if x = a then some 0 else (idxIn xs a).map (· + 1)

/-- The sort key of sort_actions: `action_priority.get(action, 999)`. -/
def actionPriority (a : String) : Nat := (idxIn ACTION_ORDER a).getD 999

/-- The action segment used as sort key: `c.path[1] if len(c.path) > 1 else ''`. -/
def actionSeg (c : Command) : String :=
  match c.path with
  | _ :: a :: _ => a
  | _ => ""

/-- sort_actions: stable sort of commands by canonical priority of their action
segment, unknown actions keyed 999. -/
def sort_actions (actions : List Command) : List Command :=
  isort (fun a b => decide (actionPriority (actionSeg a) ≤ actionPriority (actionSeg b))) actions

/-! ## Resource/Action Collector (collect_resources_across_actions) -/

/-- Inner double loop of collect_resources_across_actions: for every action
child, for every resource child carrying a command, append that command to the
resource's bucket. -/
def collectPairs (groupChildren : List (String × CommandTree)) :
    List (String × List Command) :=
  groupChildren.foldl
    (fun rs apair =>
      apair.2.children.foldl
        (fun rs rpair =>
          match rpair.2.command with
          | some c => dictAppend rs rpair.1 c
          | none => rs)
        rs)
    []

/-- collect_resources_across_actions: gather resource → commands buckets, then
sort each bucket by `c.path[1] if len(c.path) > 1 else ""` (plain string order,
Python `sorted` with a string key). -/
def collect_resources_across_actions (group_node : CommandTree) :
    List (String × List Command) :=
  (collectPairs group_node.children).map
    (fun rpair =>
      (rpair.1, isort (fun a b => strLe (actionSeg a) (actionSeg b)) rpair.2))

/-! ## CategoryMapper (generate-docs.py) -/

/-- CategoryMapper.PROTO_PREFIX_MAP: proto-package prefixes → categories, in
declaration order (a Python dict preserving insertion order). -/
def PROTO_PREFIX_MAP : List (String × String) :=
  [("views.http_loadbalancer", "Load Balancing"),
   ("views.tcp_loadbalancer", "Load Balancing"),
   ("views.udp_loadbalancer", "Load Balancing"),
   ("views.cdn_loadbalancer", "Load Balancing"),
   ("views.origin_pool", "Load Balancing"),
   ("cluster", "Load Balancing"),
   ("endpoint", "Load Balancing"),
   ("healthcheck", "Load Balancing"),
   ("route", "Load Balancing"),
   ("virtual_host", "Load Balancing"),
   ("views.aws_vpc_site", "Sites"),
   ("views.azure_vnet_site", "Sites"),
   ("views.gcp_vpc_site", "Sites"),
   ("views.voltstack_site", "Sites"),
   ("views.securemesh_site", "Sites"),
   ("views.securemesh_site_v2", "Sites"),
   ("views.aws_tgw_site", "Sites"),
   ("fleet", "Sites"),
   ("shape.bot_defense", "Bot Defense"),
   ("shape.client_side_defense", "Client-Side Defense"),
   ("shape.brmalerts", "Shape Services"),
   ("shape.data_delivery", "Shape Services"),
   ("shape.device_id", "Shape Services"),
   ("shape.mobile_app_shield", "Shape Services"),
   ("shape.mobile_integrator", "Shape Services"),
   ("shape.recognize", "Shape Services"),
   ("shape.safe", "Shape Services"),
   ("shape.safeap", "Shape Services"),
   ("shape", "Shape Services"),
   ("api_sec", "API Security"),
   ("views.api_definition", "API Security"),
   ("views.app_api_group", "API Security"),
   ("infraprotect", "Infrastructure Protection"),
   ("bigip", "BIG-IP Integration"),
   ("bigcne", "BIG-IP Integration"),
   ("views.bigip_virtual_server", "BIG-IP Integration"),
   ("network", "Networking"),
   ("virtual_network", "Networking"),
   ("bgp", "Networking"),
   ("tunnel", "Networking"),
   ("segment", "Networking"),
   ("views.network_policy_view", "Networking"),
   ("views.forward_proxy_policy", "Networking"),
   ("views.policy_based_routing", "Networking"),
   ("dns", "DNS"),
   ("certificate", "Certificates"),
   ("trusted_ca", "Certificates"),
   ("crl", "Certificates"),
   ("alert", "Monitoring"),
   ("log", "Monitoring"),
   ("apm", "Monitoring"),
   ("synthetic_monitor", "Monitoring"),
   ("report", "Monitoring"),
   ("tenant", "Organization"),
   ("namespace", "Organization"),
   ("user", "Organization"),
   ("role", "Organization"),
   ("rbac", "Organization"),
   ("contact", "Organization"),
   ("subscription", "Subscriptions"),
   ("billing", "Subscriptions"),
   ("addon", "Subscriptions"),
   ("k8s", "Kubernetes"),
   ("virtual_k8s", "Kubernetes"),
   ("views.workload", "Kubernetes"),
   ("token", "Authentication"),
   ("credential", "Authentication"),
   ("secret", "Authentication"),
   ("discovery", "Authentication"),
   ("service_policy", "Security"),
   ("malicious_user", "Security"),
   ("rate_limiter", "Security"),
   ("views.rate_limiter_policy", "Security"),
   ("waf", "Security"),
   ("app_firewall", "Security"),
   ("views.external_connector", "Integrations"),
   ("views.proxy", "Networking"),
   ("views.third_party_application", "Integrations"),
   ("views.terraform_parameters", "Integrations"),
   ("views.tenant_configuration", "Organization"),
   ("views.ike_phase1_profile", "VPN"),
   ("views.ike_phase2_profile", "VPN"),
   ("ai", "AI/ML")]

/-- CategoryMapper.RESOURCE_PATTERNS: substring patterns → categories, scanned
in this exact declared order. -/
def RESOURCE_PATTERNS : List (String × String) :=
  [("loadbalancer", "Load Balancing"),
   ("_site", "Sites"),
   ("_policy", "Security"),
   ("firewall", "Security"),
   ("waf", "Security"),
   ("credential", "Authentication"),
   ("secret", "Authentication"),
   ("k8s_", "Kubernetes"),
   ("virtual_k8s", "Kubernetes"),
   ("dns_", "DNS"),
   ("certificate", "Certificates"),
   ("alert", "Monitoring"),
   ("log_", "Monitoring"),
   ("tenant", "Organization"),
   ("namespace", "Organization"),
   ("user_", "Organization"),
   ("role", "Organization"),
   ("network", "Networking"),
   ("bgp", "Networking"),
   ("tunnel", "Networking"),
   ("subscription", "Subscriptions"),
   ("billing", "Subscriptions"),
   ("shape", "Shape Services"),
   ("bot_", "Bot Defense"),
   ("api_sec", "API Security"),
   ("infraprotect", "Infrastructure Protection"),
   ("bigip", "BIG-IP Integration")]

/-- The per-rule match test of get_category step 1:
`path.startswith(p) or f".{p}" in path or path == p`. -/
def ruleMatches (path p : String) : Bool :=
  strStartsWith path p || strContains path ("." ++ p) || path == p

/-- PROTO_PREFIX_MAP stably re-sorted by descending prefix length:
`sorted(items, key=lambda x: -len(x[0]))`. -/
def sortedPrefixMap : List (String × String) :=
  isort (fun a b => decide (b.1.length ≤ a.1.length)) PROTO_PREFIX_MAP

/-- The `for prefix, category in sorted(...)` loop body: category of the first
rule matching `path`. -/
def findRule (path : String) : List (String × String) → Option String
  | [] => none
  | (p, cat) :: rest => if ruleMatches path p then some cat else findRule path rest

/-- The fallback loop over RESOURCE_PATTERNS: category of the first pattern
occurring as a substring of the lowercased resource name. -/
def patternScan (resourceLower : String) : List (String × String) → Option String
  | [] => none
  | (pat, cat) :: rest =>
    if strContains resourceLower pat then some cat else patternScan resourceLower rest

/-- CategoryMapper.get_category: proto-package prefix matching (longest prefix
first, after deleting every occurrence of "ves.io.schema."), then resource-name
pattern matching, then "General". `proto_package = none` models Python `None`;
the empty string is falsy in Python, so both skip step 1. -/
def get_category (resource_name : String) (proto_package : Option String) : String :=
  let step2 :=
    match patternScan (pyLower resource_name) RESOURCE_PATTERNS with
    | some cat => cat
    | none => "General"
  match proto_package with
  | some pp =>
    if pp ≠ "" then
      match findRule (pyReplaceEmpty pp "ves.io.schema.") sortedPrefixMap with
      | some cat => cat
      | none => step2
    else step2
  | none => step2

/-- get_resource_category: category from the loaded API-spec index when the
resource is present (load_api_specs always stores a derived category), else
pattern-only derivation. The index is passed explicitly here; in the source it
is the generator's `resource_api_map` state. -/
def get_resource_category (apiMap : List (String × String)) (resource : String) : String :=
  match alookup apiMap resource with
  | some cat => cat
  | none => get_category resource none

/-! ## RPC Service Grouper (generate-docs.py) -/

/-- extract_rpc_service: first dot-delimited segment. -/
def extract_rpc_service (procedure_name : String) : String :=
  match procedure_name.splitOn "." with
  | h :: _ => h
  | [] => procedure_name

/-- extract_rpc_procedure_name: last dot-delimited segment. -/
def extract_rpc_procedure_name (full_name : String) : String :=
  (full_name.splitOn ".").getLastD full_name

/-- One procedure record of collect_rpc_services. -/
structure ProcInfo where
  full_name : String
  procedure_name : String
  service : String
  command : Command

/-- collect_rpc_services: bucket the procedure children carrying commands by
service, then sort each bucket by procedure name. -/
def collect_rpc_services (rpc_node : CommandTree) : List (String × List ProcInfo) :=
  let services :=
    rpc_node.children.foldl
      (fun acc ppair =>
        match ppair.2.command with
        | some c =>
          dictAppend acc (extract_rpc_service ppair.1)
            { full_name := ppair.1
              procedure_name := extract_rpc_procedure_name ppair.1
              service := extract_rpc_service ppair.1
              command := c }
        | none => acc)
      []
  services.map
    (fun spair =>
      (spair.1, isort (fun a b => strLe a.procedure_name b.procedure_name) spair.2))

/-! ## Navigation Synthesizer (generate-docs.py) -/

/-- A navigation entry: either a single label → path leaf, or a label with a
list of nested entries, mirroring the one-key Python dicts produced by the
nav builders. -/
inductive Nav where
  | leaf : String → String → Nav
  | group : String → List Nav → Nav

/-- build_rpc_service_nav: one flat leaf per service, services in ascending
name order. -/
def build_rpc_service_nav (group action : String) (node : CommandTree) : List Nav :=
  (isort (fun a b => strLe a b) ((collect_rpc_services node).map (·.1))).map
    (fun sn =>
      .leaf (to_human_readable sn)
        ("commands/" ++ group ++ "/" ++ action ++ "/" ++ sn ++ ".md"))

/-- build_child_nav. A childless node renders as an index-page leaf when it
carries a command of path depth at most 2, else as a flat `.md` leaf (also when
it carries no command). The request/rpc pair gets service-grouped children.
Otherwise children are iterated in ascending key order (the source sorts the
keys then looks each one up; child keys are unique, so sorting the pairs by key
is the same iteration), childless children inlined with the same depth rule.
`List.attach` only carries the membership proofs used for termination. -/
def build_child_nav : String → String → CommandTree → Nav
  | parent_path, name, .mk nn cmd ch =>
    let display := to_human_readable name
    let path := parent_path ++ "/" ++ name
    if ch.isEmpty then
      match cmd with
      | some c =>
        if c.path.length ≤ 2 then .leaf display ("commands/" ++ path ++ "/index.md")
        else .leaf display ("commands/" ++ path ++ ".md")
      | none => .leaf display ("commands/" ++ path ++ ".md")
    else if parent_path = "request" ∧ name = "rpc" then
      .group display
        (.leaf (display ++ " Overview") ("commands/" ++ path ++ "/index.md")
          :: build_rpc_service_nav parent_path name (.mk nn cmd ch))
    else
      .group display
        (.leaf (display ++ " Overview") ("commands/" ++ path ++ "/index.md")
          :: (isort (fun a b => strLe a.1.1 b.1.1) ch.attach).map
              (fun x =>
                if x.1.2.children.isEmpty = false then
                  build_child_nav path x.1.1 x.1.2
                else
                  match x.1.2.command with
                  | some c =>
                    if c.path.length ≤ 2 then
                      .leaf (to_human_readable x.1.1)
                        ("commands/" ++ path ++ "/" ++ x.1.1 ++ "/index.md")
                    else
                      .leaf (to_human_readable x.1.1)
                        ("commands/" ++ path ++ "/" ++ x.1.1 ++ ".md")
                  | none =>
                    .leaf (to_human_readable x.1.1)
                      ("commands/" ++ path ++ "/" ++ x.1.1 ++ ".md")))
termination_by _ _ t => sizeOf t
decreasing_by
  obtain ⟨⟨cn, cnode⟩, hm⟩ := x
  have h1 := List.sizeOf_lt_of_mem hm
  simp only [Prod.mk.sizeOf_spec] at h1
  simp only [CommandTree.mk.sizeOf_spec]
  omega

/-- Comparison of category labels used by build_resource_first_nav:
Python `sorted(keys, key=lambda c: (c == "General", c))` — "General" last,
everything else alphabetical. -/
def catLe (a b : String) : Bool :=
  if (a == "General") = (b == "General") then strLe a b else b == "General"

/-- build_resource_first_nav: resources collected across all actions, bucketed
by category, categories ordered alphabetically with "General" last, resources
alphabetical within each category, each resource a flat `.md` leaf. -/
def build_resource_first_nav (apiMap : List (String × String)) (group : String)
    (node : CommandTree) : List Nav :=
  let resources := collect_resources_across_actions node
  let categorized :=
    resources.foldl
      (fun acc rpair => dictAppend acc (get_resource_category apiMap rpair.1) rpair.1)
      []
  (isort (fun a b => catLe a.1 b.1) categorized).map
    (fun cpair =>
      .group cpair.1
        ((isort (fun a b => strLe a b) cpair.2).map
          (fun rn =>
            .leaf (to_human_readable rn) ("commands/" ++ group ++ "/" ++ rn ++ ".md"))))

/-- build_nav_tree: a childless top-level group is a single index-page leaf
(whether or not it carries a command); otherwise an Overview leaf followed by
resource-first entries for "configuration" or the sorted children built by
build_child_nav. -/
def build_nav_tree (apiMap : List (String × String)) (name : String) :
    CommandTree → Nav
  | .mk nn cmd ch =>
    let display := to_human_readable name
    if ch.isEmpty then .leaf display ("commands/" ++ name ++ "/index.md")
    else
      .group display
        (.leaf (display ++ " Overview") ("commands/" ++ name ++ "/index.md")
          :: (if name = "configuration" then
                build_resource_first_nav apiMap name (.mk nn cmd ch)
              else
                (isort (fun a b => strLe a.1 b.1) ch).map
                  (fun p => build_child_nav name p.1 p.2)))

/-! ## Subcommand-erasure view of trees (for the two-representation question) -/

/-- Forget a descriptor's nested `subcommands` field (its placement effect is
already materialized in the tree). -/
def eraseCmd : Command → Command
  | .mk p u s l e a f _ => .mk p u s l e a f []

mutual

/-- Map `eraseCmd` over every command stored in a tree. -/
def eraseTree : CommandTree → CommandTree
  | .mk n cm ch => .mk n (cm.map eraseCmd) (eraseChildren ch)

/-- Map `eraseTree` over the values of a child map. -/
def eraseChildren : List (String × CommandTree) → List (String × CommandTree)
  | [] => []
  | (k, t) :: rest => (k, eraseTree t) :: eraseChildren rest

end

mutual

/-- add_command as seen through `eraseTree`: stores the erased descriptor but
still recurses on the original subcommands. -/
def addCommandE : CommandTree → Command → CommandTree
  | t, .mk p u s l e a f subs =>
    addSubsE (insertPath t p (.mk p u s l e a f [])) subs

/-- The subcommand loop of `addCommandE`. -/
def addSubsE : CommandTree → List Command → CommandTree
  | t, [] => t
  | t, c :: cs => addSubsE (addCommandE t c) cs

end

mutual

/-- Transitive collection of the paths of a descriptor and its nested
sub-descriptors (used to state when no subcommand insertion can overwrite a
given node). -/
def cmdPaths : Command → List (List String)
  | .mk p _ _ _ _ _ _ subs => p :: cmdPathsList subs

/-- Extension of `cmdPaths` to a list of descriptors. -/
def cmdPathsList : List Command → List (List String)
  | [] => []
  | c :: cs => cmdPaths c ++ cmdPathsList cs

end

/-! ## Concrete inputs used to exercise the claims -/

/-- A command descriptor with the given path and empty texts/flags/subcommands. -/
def mkCmd (p : List String) : Command := .mk p "" "" "" "" [] [] []

/-- The generator's initial tree: `CommandTree(name="xcsh")`. -/
def root0 : CommandTree := .mk "xcsh" none []

/-- The `configuration list namespace` command. -/
def cfgListNs : Command := mkCmd ["configuration", "list", "namespace"]

/-- The `configuration get namespace` command. -/
def cfgGetNs : Command := mkCmd ["configuration", "get", "namespace"]

/-- Commands with the five action segments of the canonical-sort example. -/
def actStatus : Command := mkCmd ["g", "status"]

/-- See `actStatus`. -/
def actList : Command := mkCmd ["g", "list"]

/-- See `actStatus`. -/
def actCustom2 : Command := mkCmd ["g", "custom2"]

/-- See `actStatus`. -/
def actGet : Command := mkCmd ["g", "get"]

/-- See `actStatus`. -/
def actCustom1 : Command := mkCmd ["g", "custom1"]

/-- A descriptor with an empty path. -/
def emptyPathCmd : Command := mkCmd []

/-- A nested sub-descriptor with fully-qualified path. -/
def subC : Command := mkCmd ["grp", "sub"]

/-- A parent descriptor declaring `subC` inline in `subcommands`. -/
def parentWithSub : Command := .mk ["grp"] "" "" "" "" [] [] [subC]

/-- The same parent without the nested sub-descriptor. -/
def parentNoSub : Command := .mk ["grp"] "" "" "" "" [] [] []

/-- The tree after inserting the two configuration commands, list first. -/
def cfgTree : CommandTree := add_command (add_command root0 cfgListNs) cfgGetNs

/-- The `configuration` group node of `cfgTree`. -/
def cfgGroupNode : CommandTree := (findNode cfgTree ["configuration"]).getD root0

/-! ## Stable-sort lemmas -/

theorem mem_insertLe {α : Type} (le : α → α → Bool) (x a : α) (l : List α) :
    a ∈ insertLe le x l ↔ a = x ∨ a ∈ l := by
  induction l with
  | nil => simp [insertLe]
  | cons y ys ih =>
    by_cases h : le x y = true
    · simp [insertLe, h]
    · simp only [insertLe, h, if_neg, Bool.not_eq_true] at *
      simp [List.mem_cons, ih]
      tauto

theorem mem_isort {α : Type} (le : α → α → Bool) (a : α) (l : List α) :
    a ∈ isort le l ↔ a ∈ l := by
  induction l with
  | nil => simp [isort]
  | cons x xs ih => simp [isort, mem_insertLe, ih]

theorem pairwise_insertLe {α : Type} (le : α → α → Bool)
    (htot : ∀ a b, le a b = true ∨ le b a = true)
    (htrans : ∀ a b c, le a b = true → le b c = true → le a c = true)
    (x : α) (l : List α)
    (hl : l.Pairwise (fun a b => le a b = true)) :
    (insertLe le x l).Pairwise (fun a b => le a b = true) := by
  induction l with
  | nil => simp [insertLe]
  | cons y ys ih =>
    rcases List.pairwise_cons.mp hl with ⟨hy, hys⟩
    simp only [insertLe]
    by_cases h : le x y = true
    · rw [if_pos h]
      refine List.pairwise_cons.mpr ⟨?_, hl⟩
      intro b hb
      rcases List.mem_cons.mp hb with rfl | hb
      · exact h
      · exact htrans x y b h (hy b hb)
    · rw [if_neg h]
      refine List.pairwise_cons.mpr ⟨?_, ih hys⟩
      intro b hb
      rcases (mem_insertLe le x b ys).mp hb with hbx | hb
      · rw [hbx]
        rcases htot x y with hxy | hyx
        · exact absurd hxy h
        · exact hyx
      · exact hy b hb

theorem pairwise_isort {α : Type} (le : α → α → Bool)
    (htot : ∀ a b, le a b = true ∨ le b a = true)
    (htrans : ∀ a b c, le a b = true → le b c = true → le a c = true)
    (l : List α) :
    (isort le l).Pairwise (fun a b => le a b = true) := by
  induction l with
  | nil => simp [isort]
  | cons x xs ih => exact pairwise_insertLe le htot htrans x (isort le xs) ih

theorem filter_insertLe_key_eq {α κ : Type} [LinearOrder κ] (key : α → κ)
    (x : α) (l : List α) (k : κ) (hx : key x = k) :
    (insertLe (fun a b => decide (key a ≤ key b)) x l).filter
        (fun c => decide (key c = k)) =
      x :: l.filter (fun c => decide (key c = k)) := by
  induction l with
  | nil => simp [insertLe, hx]
  | cons y ys ih =>
    by_cases h : key x ≤ key y
    · have hxy : decide (key x ≤ key y) = true := by simp [h]
      simp only [insertLe, hxy, if_true]
      rw [List.filter_cons]
      simp [hx]
    · have hne : key y ≠ k := by
        intro hk
        exact h (le_of_eq (hx.trans hk.symm))
      have hxy : decide (key x ≤ key y) = false := by simp [h]
      simp only [insertLe, hxy, Bool.false_eq_true, if_false]
      rw [List.filter_cons]
      simp [hne, ih]

theorem filter_insertLe_key_ne {α κ : Type} [LinearOrder κ] (key : α → κ)
    (x : α) (l : List α) (k : κ) (hx : key x ≠ k) :
    (insertLe (fun a b => decide (key a ≤ key b)) x l).filter
        (fun c => decide (key c = k)) =
      l.filter (fun c => decide (key c = k)) := by
  induction l with
  | nil => simp [insertLe, hx]
  | cons y ys ih =>
    by_cases h : key x ≤ key y
    · have hxy : decide (key x ≤ key y) = true := by simp [h]
      simp only [insertLe, hxy, if_true]
      rw [List.filter_cons]
      simp [hx]
    · have hxy : decide (key x ≤ key y) = false := by simp [h]
      simp only [insertLe, hxy, Bool.false_eq_true, if_false]
      rw [List.filter_cons, List.filter_cons]
      by_cases hy : key y = k
      · simp [hy, ih]
      · simp [hy, ih]

theorem filter_isort_key {α κ : Type} [LinearOrder κ] (key : α → κ)
    (l : List α) (k : κ) :
    (isort (fun a b => decide (key a ≤ key b)) l).filter
        (fun c => decide (key c = k)) =
      l.filter (fun c => decide (key c = k)) := by
  induction l with
  | nil => rfl
  | cons x xs ih =>
    simp only [isort]
    by_cases hx : key x = k
    · rw [filter_insertLe_key_eq key x _ k hx, ih, List.filter_cons]
      simp [hx]
    · rw [filter_insertLe_key_ne key x _ k hx, ih, List.filter_cons]
      simp [hx]

/-! ## Dict (association-list) lemmas -/

theorem alookup_dictSet_self {β : Type} (ch : List (String × β)) (k : String) (v : β) :
    alookup (dictSet ch k v) k = some v := by
  induction ch with
  | nil => simp [dictSet, alookup]
  | cons p rest ih =>
    obtain ⟨k', w⟩ := p
    by_cases h : k' = k
    · simp [dictSet, h, alookup]
    · simp [dictSet, h, alookup, ih]

theorem alookup_dictSet_ne {β : Type} (ch : List (String × β)) (k q : String) (v : β)
    (hne : q ≠ k) :
    alookup (dictSet ch k v) q = alookup ch q := by
  have hkq : k ≠ q := fun hh => hne hh.symm
  induction ch with
  | nil => simp [dictSet, alookup, hkq]
  | cons p rest ih =>
    obtain ⟨k', w⟩ := p
    by_cases h : k' = k
    · subst h
      simp [dictSet, alookup, hkq]
    · by_cases h2 : k' = q
      · simp [dictSet, h, alookup, h2, hne]
      · simp [dictSet, h, alookup, h2, ih]

/-! ## insertPath lemmas -/

theorem commandAt_insertPath_self (p : List String) :
    ∀ (t : CommandTree) (c : Command), commandAt (insertPath t p c) p = some c := by
  induction p with
  | nil =>
    intro t c
    obtain ⟨n, cm, ch⟩ := t
    simp [insertPath, commandAt, findNode, CommandTree.command]
  | cons a as ih =>
    intro t c
    obtain ⟨n, cm, ch⟩ := t
    simp only [insertPath, commandAt, findNode, CommandTree.children,
      alookup_dictSet_self]
    exact ih _ c

theorem commandAt_insertPath_ne (p q : List String) (hne : q ≠ p) :
    ∀ (t : CommandTree) (c : Command), commandAt (insertPath t p c) q = commandAt t q := by
  induction p generalizing q with
  | nil =>
    intro t c
    obtain ⟨n, cm, ch⟩ := t
    obtain _ | ⟨x, xs⟩ := q
    · exact absurd rfl hne
    · simp [insertPath, commandAt, findNode, CommandTree.children]
  | cons a as ih =>
    intro t c
    obtain ⟨n, cm, ch⟩ := t
    obtain _ | ⟨x, xs⟩ := q
    · simp [insertPath, commandAt, findNode, CommandTree.command]
    · by_cases hx : x = a
      · subst hx
        have hxs : xs ≠ as := fun h => hne (h ▸ rfl)
        have hstep :
            commandAt (insertPath (CommandTree.mk n cm ch) (x :: as) c) (x :: xs) =
              commandAt
                (insertPath ((alookup ch x).getD (CommandTree.mk x none [])) as c) xs := by
          simp [insertPath, commandAt, findNode, CommandTree.children,
            alookup_dictSet_self]
        rw [hstep, ih xs hxs _ c]
        cases hfind : alookup ch x with
        | some child =>
          simp [hfind, commandAt, findNode, CommandTree.children]
        | none =>
          simp only [hfind, Option.getD_none]
          obtain _ | ⟨y, ys⟩ := xs
          · simp [commandAt, findNode, CommandTree.command, CommandTree.children, hfind]
          · simp [commandAt, findNode, CommandTree.children, alookup, hfind]
      · simp only [insertPath, commandAt, findNode, CommandTree.children]
        rw [alookup_dictSet_ne ch a x _ hx]

theorem findNode_insertPath_isSome_of_pre (p q : List String) (hq : q <+: p) :
    ∀ (t : CommandTree) (c : Command),
      (findNode (insertPath t p c) q).isSome = true := by
  induction p generalizing q with
  | nil =>
    intro t c
    rw [List.prefix_nil.mp hq]
    obtain ⟨n, cm, ch⟩ := t
    simp [insertPath, findNode]
  | cons a as ih =>
    intro t c
    obtain ⟨n, cm, ch⟩ := t
    obtain _ | ⟨x, xs⟩ := q
    · simp [findNode]
    · obtain ⟨hx, hxs⟩ := List.cons_prefix_cons.mp hq
      subst hx
      simp only [insertPath, findNode, CommandTree.children, alookup_dictSet_self]
      exact ih xs hxs _ c

theorem findNode_insertPath_isSome_mono (q : List String) :
    ∀ (p : List String) (t : CommandTree) (c : Command),
      (findNode t q).isSome = true →
      (findNode (insertPath t p c) q).isSome = true := by
  induction q with
  | nil =>
    intro p t c _
    simp [findNode]
  | cons x xs ih =>
    intro p t c h
    obtain ⟨n, cm, ch⟩ := t
    obtain _ | ⟨a, as⟩ := p
    · simpa [insertPath, findNode, CommandTree.children] using h
    · by_cases hx : x = a
      · subst hx
        simp only [findNode, CommandTree.children] at h
        cases hfind : alookup ch x with
        | none => rw [hfind] at h; simp at h
        | some child =>
          rw [hfind] at h
          simp only [insertPath, findNode, CommandTree.children,
            alookup_dictSet_self, hfind, Option.getD_some]
          exact ih as child c h
      · simp only [insertPath, findNode, CommandTree.children]
        rw [alookup_dictSet_ne ch a x _ hx]
        simpa [findNode, CommandTree.children] using h

mutual

theorem findNode_add_command_isSome_mono (t : CommandTree) (c : Command)
    (q : List String) (h : (findNode t q).isSome = true) :
    (findNode (add_command t c) q).isSome = true := by
  cases c with
  | mk p u s l e a f subs =>
    simp only [add_command]
    exact findNode_addSubs_isSome_mono _ subs q
      (findNode_insertPath_isSome_mono q p t _ h)

theorem findNode_addSubs_isSome_mono (t : CommandTree) (cs : List Command)
    (q : List String) (h : (findNode t q).isSome = true) :
    (findNode (addSubs t cs) q).isSome = true := by
  cases cs with
  | nil => simpa [addSubs] using h
  | cons c rest =>
    simp only [addSubs]
    exact findNode_addSubs_isSome_mono _ rest q
      (findNode_add_command_isSome_mono t c q h)

end

mutual

theorem commandAt_add_command_notmem (t : CommandTree) (c : Command)
    (q : List String) (h : q ∉ cmdPaths c) :
    commandAt (add_command t c) q = commandAt t q := by
  cases c with
  | mk p u s l e a f subs =>
    have hqp : q ≠ p := by
      intro hq
      exact h (by rw [cmdPaths, hq]; exact List.mem_cons_self _ _)
    have hqs : q ∉ cmdPathsList subs := by
      intro hm
      exact h (by rw [cmdPaths]; exact List.mem_cons_of_mem _ hm)
    simp only [add_command]
    rw [commandAt_addSubs_notmem _ subs q hqs, commandAt_insertPath_ne p q hqp]

theorem commandAt_addSubs_notmem (t : CommandTree) (cs : List Command)
    (q : List String) (h : q ∉ cmdPathsList cs) :
    commandAt (addSubs t cs) q = commandAt t q := by
  cases cs with
  | nil => rw [addSubs]
  | cons c rest =>
    have h1 : q ∉ cmdPaths c := by
      intro hm
      exact h (by rw [cmdPathsList]; exact List.mem_append_left _ hm)
    have h2 : q ∉ cmdPathsList rest := by
      intro hm
      exact h (by rw [cmdPathsList]; exact List.mem_append_right _ hm)
    simp only [addSubs]
    rw [commandAt_addSubs_notmem _ rest q h2, commandAt_add_command_notmem t c q h1]

end

theorem commandAt_add_command_self (t : CommandTree) (c : Command)
    (h : c.path ∉ cmdPathsList c.subcommands) :
    commandAt (add_command t c) c.path = some c := by
  cases c with
  | mk p u s l e a f subs =>
    simp only [Command.path, Command.subcommands] at h ⊢
    simp only [add_command]
    rw [commandAt_addSubs_notmem _ subs p h, commandAt_insertPath_self]

/-! ## Erasure homomorphism lemmas -/

theorem alookup_eraseChildren (ch : List (String × CommandTree)) (k : String) :
    alookup (eraseChildren ch) k = (alookup ch k).map eraseTree := by
  induction ch with
  | nil => simp [eraseChildren, alookup]
  | cons p rest ih =>
    obtain ⟨k', t⟩ := p
    by_cases h : k' = k
    · simp [eraseChildren, alookup, h]
    · simp [eraseChildren, alookup, h, ih]

theorem dictSet_eraseChildren (ch : List (String × CommandTree)) (k : String)
    (v : CommandTree) :
    dictSet (eraseChildren ch) k (eraseTree v) = eraseChildren (dictSet ch k v) := by
  induction ch with
  | nil => simp [eraseChildren, dictSet]
  | cons p rest ih =>
    obtain ⟨k', t⟩ := p
    by_cases h : k' = k
    · simp [eraseChildren, dictSet, h]
    · simp [eraseChildren, dictSet, h, ih]

theorem eraseTree_insertPath (p : List String) :
    ∀ (t : CommandTree) (c : Command),
      eraseTree (insertPath t p c) = insertPath (eraseTree t) p (eraseCmd c) := by
  induction p with
  | nil =>
    intro t c
    obtain ⟨n, cm, ch⟩ := t
    simp [insertPath, eraseTree]
  | cons a as ih =>
    intro t c
    obtain ⟨n, cm, ch⟩ := t
    simp only [insertPath, eraseTree, CommandTree.mk.injEq, true_and]
    rw [alookup_eraseChildren]
    cases hfind : alookup ch a with
    | some child =>
      simp only [hfind, Option.map_some', Option.getD_some]
      rw [← ih child c, dictSet_eraseChildren]
    | none =>
      simp only [hfind, Option.map_none', Option.getD_none]
      rw [← dictSet_eraseChildren]
      congr 1
      rw [ih]
      have he : eraseTree (CommandTree.mk a none []) = CommandTree.mk a none [] := by
        rw [eraseTree, eraseChildren]
        rfl
      rw [he]

mutual

theorem eraseTree_add_command (t : CommandTree) (c : Command) :
    eraseTree (add_command t c) = addCommandE (eraseTree t) c := by
  cases c with
  | mk p u s l e a f subs =>
    simp only [add_command, addCommandE]
    rw [eraseTree_addSubs, eraseTree_insertPath]
    rfl

theorem eraseTree_addSubs (t : CommandTree) (cs : List Command) :
    eraseTree (addSubs t cs) = addSubsE (eraseTree t) cs := by
  cases cs with
  | nil => simp [addSubs, addSubsE]
  | cons c rest =>
    simp only [addSubs, addSubsE]
    rw [eraseTree_addSubs, eraseTree_add_command]

end

theorem addSubsE_append (t : CommandTree) (xs : List Command) (c : Command) :
    addSubsE t (xs ++ [c]) = addCommandE (addSubsE t xs) c := by
  induction xs generalizing t with
  | nil => simp [addSubsE]
  | cons y ys ih => simp only [List.cons_append, addSubsE]; exact ih _

/-! ## Order lemmas for the code-point string comparison -/

theorem charsLe_refl (l : List Char) : charsLe l l = true := by
  induction l with
  | nil => rfl
  | cons x xs ih => simp [charsLe, ih]

theorem charsLe_total (a : List Char) :
    ∀ b, charsLe a b = true ∨ charsLe b a = true := by
  induction a with
  | nil => intro b; left; simp [charsLe]
  | cons x xs ih =>
    intro b
    obtain _ | ⟨y, ys⟩ := b
    · right; simp [charsLe]
    · simp only [charsLe]
      by_cases hxy : x = y
      · subst hxy
        rw [if_pos rfl, if_pos rfl]
        exact ih ys
      · rw [if_neg hxy, if_neg (Ne.symm hxy)]
        rcases lt_or_gt_of_ne hxy with h | h
        · left; exact decide_eq_true h
        · right; exact decide_eq_true h

theorem charsLe_trans (a : List Char) :
    ∀ b c, charsLe a b = true → charsLe b c = true → charsLe a c = true := by
  induction a with
  | nil => intro b c _ _; simp [charsLe]
  | cons x xs ih =>
    intro b c hab hbc
    obtain _ | ⟨y, ys⟩ := b
    · simp [charsLe] at hab
    · obtain _ | ⟨z, zs⟩ := c
      · simp [charsLe] at hbc
      · simp only [charsLe] at hab hbc ⊢
        by_cases hxy : x = y
        · subst hxy
          rw [if_pos rfl] at hab
          by_cases hxz : x = z
          · subst hxz
            rw [if_pos rfl] at hbc
            rw [if_pos rfl]
            exact ih ys zs hab hbc
          · rw [if_neg hxz] at hbc
            rw [if_neg hxz]
            exact hbc
        · rw [if_neg hxy] at hab
          have hlt : x < y := of_decide_eq_true hab
          by_cases hyz : y = z
          · subst hyz
            rw [if_neg hxy]
            exact hab
          · rw [if_neg hyz] at hbc
            have hlt2 : y < z := of_decide_eq_true hbc
            have hxz : x < z := lt_trans hlt hlt2
            rw [if_neg (ne_of_lt hxz)]
            exact decide_eq_true hxz

theorem strLe_total (a b : String) : strLe a b = true ∨ strLe b a = true :=
  charsLe_total a.toList b.toList

theorem strLe_trans (a b c : String) :
    strLe a b = true → strLe b c = true → strLe a c = true :=
  charsLe_trans a.toList b.toList c.toList

/-! ## Category Resolver lemmas -/

theorem findRule_eq_find (path : String) (l : List (String × String)) :
    findRule path l = (l.find? (fun pc => ruleMatches path pc.1)).map Prod.snd := by
  induction l with
  | nil => simp [findRule]
  | cons pc rest ih =>
    obtain ⟨p, cat⟩ := pc
    by_cases h : ruleMatches path p = true
    · simp [findRule, h, List.find?]
    · simp only [findRule, List.find?, h, if_neg, Bool.false_eq_true, if_false]
      simpa [h] using ih

theorem find_desc_max {α : Type} (f : α → Nat) (pred : α → Bool) (l : List α)
    (hdesc : l.Pairwise (fun a b => f b ≤ f a)) (x : α)
    (hfind : l.find? pred = some x) :
    ∀ y ∈ l, pred y = true → f y ≤ f x := by
  induction l with
  | nil => simp at hfind
  | cons z t ih =>
    rcases List.pairwise_cons.mp hdesc with ⟨hz, ht⟩
    by_cases hp : pred z = true
    · rw [List.find?_cons_of_pos _ hp] at hfind
      injection hfind with hx
      subst hx
      intro y hy _
      rcases List.mem_cons.mp hy with rfl | hy
      · exact le_refl _
      · exact hz y hy
    · rw [List.find?_cons_of_neg _ (by simpa using hp)] at hfind
      intro y hy hpy
      rcases List.mem_cons.mp hy with rfl | hy
      · exact absurd hpy hp
      · exact ih ht hfind y hy hpy

theorem patternScan_append_first (r : String) (pre post : List (String × String))
    (pat cat : String)
    (hpre : ∀ pc ∈ pre, strContains r pc.1 = false)
    (hpat : strContains r pat = true) :
    patternScan r (pre ++ (pat, cat) :: post) = some cat := by
  induction pre with
  | nil => simp [patternScan, hpat]
  | cons pc rest ih =>
    obtain ⟨p0, c0⟩ := pc
    have h0 : strContains r p0 = false := hpre (p0, c0) (List.mem_cons_self _ _)
    simp only [List.cons_append, patternScan, h0, Bool.false_eq_true, if_false]
    exact ih (fun pc hm => hpre pc (List.mem_cons_of_mem _ hm))

theorem patternScan_eq_none (r : String) (l : List (String × String))
    (h : ∀ pc ∈ l, strContains r pc.1 = false) :
    patternScan r l = none := by
  induction l with
  | nil => rfl
  | cons pc rest ih =>
    obtain ⟨p0, c0⟩ := pc
    have h0 : strContains r p0 = false := h (p0, c0) (List.mem_cons_self _ _)
    simp only [patternScan, h0, Bool.false_eq_true, if_false]
    exact ih (fun pc hm => h pc (List.mem_cons_of_mem _ hm))

/-! ## Collector lemma -/

theorem collect_value_sorted (g : CommandTree) (rname : String) (cs : List Command)
    (hmem : (rname, cs) ∈ collect_resources_across_actions g) :
    cs.Pairwise (fun a b => strLe (actionSeg a) (actionSeg b) = true) := by
  simp only [collect_resources_across_actions, List.mem_map] at hmem
  obtain ⟨⟨n, l⟩, _, heq⟩ := hmem
  have hcs : cs = isort (fun a b => strLe (actionSeg a) (actionSeg b)) l := by
    have h2 := congrArg Prod.snd heq
    simpa using h2.symm
  rw [hcs]
  exact pairwise_isort (fun a b => strLe (actionSeg a) (actionSeg b))
    (fun a b => strLe_total (actionSeg a) (actionSeg b))
    (fun a b c => strLe_trans (actionSeg a) (actionSeg b) (actionSeg c)) l

/-! ## Claim theorems -/

/-- C10: get_category deletes every occurrence of "ves.io.schema." from the
protocol namespace - also occurrences in the middle, not only a leading one -
and treats an empty protocol-namespace string exactly like an absent one
(pattern-only resolution). -/
theorem C10_strip_all_occurrences :
    (∀ r : String, get_category r (some "") = get_category r none)
    ∧ pyReplaceEmpty "shape.ves.io.schema.bot_defense" "ves.io.schema." =
        "shape.bot_defense"
    ∧ get_category "x" (some "shape.ves.io.schema.bot_defense") = "Bot Defense" := by
  refine ⟨?_, rfl, rfl⟩
  intro r
  simp [get_category]

/-- Reduction of get_category to its pattern-scan fallback whenever step 1 is
unavailable or unsuccessful: the namespace is absent, empty, or matches no
prefix rule. -/
theorem get_category_step2 (r : String) (pp : Option String)
    (hnomatch : ∀ s, pp = some s → s ≠ "" →
        findRule (pyReplaceEmpty s "ves.io.schema.") sortedPrefixMap = none) :
    get_category r pp =
      match patternScan (pyLower r) RESOURCE_PATTERNS with
      | some cat => cat
      | none => "General" := by
  match pp with
  | none => rfl
  | some s =>
    by_cases hs : s = ""
    · subst hs
      simp [get_category]
    · have hnone := hnomatch s rfl hs
      simp only [get_category]
      rw [if_pos hs, hnone]

/-- C4: whenever no protocol namespace is given, or the given one is empty, or
step 1 matched no prefix rule, get_category scans the substring patterns in
declared order over the lowercased resource name; the first matching pattern
wins regardless of match length, and if none matches the result is
"General". -/
theorem C4_pattern_order_first_match (r : String) (pp : Option String)
    (hnomatch : ∀ s, pp = some s → s ≠ "" →
        findRule (pyReplaceEmpty s "ves.io.schema.") sortedPrefixMap = none) :
    (∀ (pre post : List (String × String)) (pat cat : String),
        RESOURCE_PATTERNS = pre ++ (pat, cat) :: post →
        (∀ pc ∈ pre, strContains (pyLower r) pc.1 = false) →
        strContains (pyLower r) pat = true →
        get_category r pp = cat)
    ∧ ((∀ pc ∈ RESOURCE_PATTERNS, strContains (pyLower r) pc.1 = false) →
        get_category r pp = "General") := by
  have hstep := get_category_step2 r pp hnomatch
  constructor
  · intro pre post pat cat hdecomp hpre hpat
    rw [hstep, hdecomp, patternScan_append_first (pyLower r) pre post pat cat hpre hpat]
  · intro hall
    rw [hstep, patternScan_eq_none (pyLower r) _ hall]

/-- Witness for C4: "subscription_site" matches "_site" (position 2 in the
table) before the longer "subscription" (position 21), so the category is
"Sites" - both with no namespace at all and with the namespace "zzz.nothing",
which matches no prefix rule, so step 1 falls through to the same pattern
scan; "zzz" matches nothing and falls to "General". -/
theorem C4_pattern_order_first_match_witness :
    get_category "subscription_site" none = "Sites"
    ∧ get_category "subscription_site" (some "zzz.nothing") = "Sites"
    ∧ get_category "zzz" none = "General" := by
  refine ⟨?_, ?_, ?_⟩
  · exact (C4_pattern_order_first_match "subscription_site" none
      (by intro s hs _; cases hs)).1
      [("loadbalancer", "Load Balancing")] (RESOURCE_PATTERNS.drop 2)
      "_site" "Sites" rfl (by decide) (by decide)
  · exact (C4_pattern_order_first_match "subscription_site" (some "zzz.nothing")
      (by intro s hs _; injection hs with h; subst h; decide)).1
      [("loadbalancer", "Load Balancing")] (RESOURCE_PATTERNS.drop 2)
      "_site" "Sites" rfl (by decide) (by decide)
  · exact (C4_pattern_order_first_match "zzz" none
      (by intro s hs _; cases hs)).2 (by decide)

/-- C5: sort_actions is a stable sort by canonical action priority: known
actions come first in ACTION_ORDER position, unknown actions (priority 999)
after them; stability is expressed by the key-filter identity (elements with
equal priority keep their original relative order); the five-action example
sorts exactly as the spec states. -/
theorem C5_sort_actions_stable_canonical :
    sort_actions [actStatus, actList, actCustom2, actGet, actCustom1] =
      [actList, actGet, actStatus, actCustom2, actCustom1]
    ∧ (∀ l : List Command,
        (sort_actions l).Pairwise
          (fun a b => actionPriority (actionSeg a) ≤ actionPriority (actionSeg b)))
    ∧ (∀ (l : List Command) (k : Nat),
        (sort_actions l).filter (fun c => decide (actionPriority (actionSeg c) = k)) =
          l.filter (fun c => decide (actionPriority (actionSeg c) = k))) := by
  refine ⟨rfl, ?_, ?_⟩
  · intro l
    have h := pairwise_isort
      (fun a b => decide (actionPriority (actionSeg a) ≤ actionPriority (actionSeg b)))
      (fun a b => by
        rcases Nat.le_total (actionPriority (actionSeg a)) (actionPriority (actionSeg b))
          with h | h
        · exact Or.inl (decide_eq_true h)
        · exact Or.inr (decide_eq_true h))
      (fun a b c hab hbc =>
        decide_eq_true (le_trans (of_decide_eq_true hab) (of_decide_eq_true hbc)))
      l
    exact h.imp (fun hd => of_decide_eq_true hd)
  · intro l k
    exact filter_isort_key (fun c => actionPriority (actionSeg c)) l k

/-- C3: when a protocol namespace is usable, get_category scans the prefix
rules in descending prefix length and returns the category of the first match,
so the returned category always belongs to a matching rule whose prefix is at
least as long as that of every matching rule ("longest prefix wins"). -/
theorem C3_longest_prefix_wins (resource pp : String) (hpp : pp ≠ "")
    (pre cat : String) (hmem : (pre, cat) ∈ PROTO_PREFIX_MAP)
    (hmatch : ruleMatches (pyReplaceEmpty pp "ves.io.schema.") pre = true) :
    ∃ pc : String × String, pc ∈ PROTO_PREFIX_MAP ∧
      ruleMatches (pyReplaceEmpty pp "ves.io.schema.") pc.1 = true ∧
      get_category resource (some pp) = pc.2 ∧
      ∀ qc : String × String, qc ∈ PROTO_PREFIX_MAP →
        ruleMatches (pyReplaceEmpty pp "ves.io.schema.") qc.1 = true →
        qc.1.length ≤ pc.1.length := by
  have hmem' : (pre, cat) ∈ sortedPrefixMap := (mem_isort _ _ _).mpr hmem
  have hne : sortedPrefixMap.find?
      (fun pc => ruleMatches (pyReplaceEmpty pp "ves.io.schema.") pc.1) ≠ none := by
    intro hnone
    have habs := List.find?_eq_none.mp hnone (pre, cat) hmem'
    simp [hmatch] at habs
  obtain ⟨x, hx⟩ := Option.ne_none_iff_exists'.mp hne
  have hxmem : x ∈ sortedPrefixMap := List.mem_of_find?_eq_some hx
  have hxpred : ruleMatches (pyReplaceEmpty pp "ves.io.schema.") x.1 = true := by
    have h := List.find?_some hx
    simpa using h
  have hdesc : sortedPrefixMap.Pairwise (fun a b => b.1.length ≤ a.1.length) := by
    have h := pairwise_isort
      (fun a b : String × String => decide (b.1.length ≤ a.1.length))
      (fun a b => by
        rcases Nat.le_total b.1.length a.1.length with h | h
        · exact Or.inl (decide_eq_true h)
        · exact Or.inr (decide_eq_true h))
      (fun a b c hab hbc =>
        decide_eq_true (le_trans (of_decide_eq_true hbc) (of_decide_eq_true hab)))
      PROTO_PREFIX_MAP
    exact h.imp (fun hd => of_decide_eq_true hd)
  refine ⟨x, (mem_isort _ _ _).mp hxmem, hxpred, ?_, ?_⟩
  · simp only [get_category]
    rw [if_pos hpp, findRule_eq_find, hx]
    rfl
  · intro qc hqc hqmatch
    exact find_desc_max (fun pc => pc.1.length) _ sortedPrefixMap hdesc x hx qc
      ((mem_isort _ _ _).mpr hqc) hqmatch

/-- Witness for C3: the namespace "ves.io.schema.views.http_loadbalancer"
strips to "views.http_loadbalancer", which the rule of the same name matches,
and resolution yields its category "Load Balancing". -/
theorem C3_longest_prefix_wins_witness :
    get_category "http_loadbalancer" (some "ves.io.schema.views.http_loadbalancer") =
      "Load Balancing" := by
  obtain ⟨pc, _, _, heq, hmax⟩ :=
    C3_longest_prefix_wins "http_loadbalancer" "ves.io.schema.views.http_loadbalancer"
      (by decide) "views.http_loadbalancer" "Load Balancing" (by decide) (by decide)
  have hcat : get_category "http_loadbalancer"
      (some "ves.io.schema.views.http_loadbalancer") = pc.2 := heq
  rw [hcat]
  have hres : get_category "http_loadbalancer"
      (some "ves.io.schema.views.http_loadbalancer") = "Load Balancing" := rfl
  rw [hcat] at hres
  exact hres

/-- C6: add_command creates a node at every prefix of a command's non-empty
path, stores the command at the full-path node (when no nested sub-descriptor
reuses that same path), and a second insertion at the same full path
overwrites the first - last write wins, no error. -/
theorem C6_add_command_prefix_nodes (t : CommandTree) (cmd : Command)
    (hne : cmd.path ≠ [])
    (hsub : cmd.path ∉ cmdPathsList cmd.subcommands) :
    (∀ q : List String, q <+: cmd.path →
        (findNode (add_command t cmd) q).isSome = true)
    ∧ commandAt (add_command t cmd) cmd.path = some cmd
    ∧ ∀ cmd2 : Command, cmd2.path = cmd.path →
        cmd2.path ∉ cmdPathsList cmd2.subcommands →
        commandAt (add_command (add_command t cmd) cmd2) cmd.path = some cmd2 := by
  refine ⟨?_, commandAt_add_command_self t cmd hsub, ?_⟩
  · intro q hq
    cases cmd with
    | mk p u s l e a f subs =>
      simp only [Command.path] at hq
      simp only [add_command]
      exact findNode_addSubs_isSome_mono _ subs q
        (findNode_insertPath_isSome_of_pre p q hq t _)
  · intro cmd2 hpath hsub2
    rw [← hpath]
    exact commandAt_add_command_self (add_command t cmd) cmd2 hsub2

/-- Witness for C6 at the configuration-list-namespace command: the strict
prefix node exists and the full-path node carries the command; overwriting
with the get-variant at the same path wins. -/
theorem C6_add_command_prefix_nodes_witness :
    (findNode (add_command root0 cfgListNs) ["configuration", "list"]).isSome = true
    ∧ commandAt (add_command root0 cfgListNs) cfgListNs.path = some cfgListNs := by
  have h := C6_add_command_prefix_nodes root0 cfgListNs (by decide) (by decide)
  exact ⟨h.1 ["configuration", "list"] (by decide), h.2.1⟩

/-- C2 counterexample: a descriptor with an empty path is not rejected - the
walk over its zero segments ends at the root immediately, so the root node
itself receives the command and the tree changes. -/
theorem C2_counterexample :
    (add_command root0 emptyPathCmd).command = some emptyPathCmd
    ∧ add_command root0 emptyPathCmd ≠ root0 := by
  refine ⟨rfl, ?_⟩
  intro h
  have h1 : (add_command root0 emptyPathCmd).command = some emptyPathCmd := rfl
  rw [h] at h1
  simp [root0, CommandTree.command] at h1

/-- C2 amended: an empty-path descriptor (without nested sub-descriptors) is
assigned as the root node's own command, children untouched - it is not
skipped. -/
theorem C2_amended (t : CommandTree) (u s l e : String) (al : List String)
    (fl : List Flag) :
    add_command t (Command.mk [] u s l e al fl []) =
      CommandTree.mk t.name (some (Command.mk [] u s l e al fl [])) t.children := by
  obtain ⟨n, cm, ch⟩ := t
  rfl

/-- C1 counterexample: after inserting the configuration list/get namespace
commands, collect_resources_across_actions maps "namespace" to
[get-command, list-command] - the buckets are sorted alphabetically by the
action segment, not in the canonical order the claim states ([list, get]). -/
theorem C1_counterexample :
    (findNode cfgTree ["configuration"]).map collect_resources_across_actions =
      some [("namespace", [cfgGetNs, cfgListNs])]
    ∧ [("namespace", [cfgGetNs, cfgListNs])] ≠ [("namespace", [cfgListNs, cfgGetNs])] := by
  refine ⟨rfl, ?_⟩
  intro h
  simp only [List.cons.injEq, Prod.mk.injEq, and_true, true_and] at h
  have hfirst : cfgGetNs = cfgListNs := h.1
  simp [cfgGetNs, cfgListNs, mkCmd] at hfirst

/-- C1 amended: each resource bucket of collect_resources_across_actions is
sorted alphabetically (code-point order) by the action segment at path index
1, independently of insertion order; both insertion orders of the example
yield "namespace" mapped to [get-command, list-command]. -/
theorem C1_amended :
    (findNode cfgTree ["configuration"]).map collect_resources_across_actions =
      some [("namespace", [cfgGetNs, cfgListNs])]
    ∧ (findNode (add_command (add_command root0 cfgGetNs) cfgListNs)
        ["configuration"]).map collect_resources_across_actions =
      some [("namespace", [cfgGetNs, cfgListNs])]
    ∧ ∀ (g : CommandTree) (rname : String) (cs : List Command),
        (rname, cs) ∈ collect_resources_across_actions g →
        cs.Pairwise (fun a b => strLe (actionSeg a) (actionSeg b) = true) :=
  ⟨rfl, rfl, collect_value_sorted⟩

/-- Witness for C1 amended: the namespace bucket of the example tree is
alphabetically sorted by action segment. -/
theorem C1_amended_witness :
    List.Pairwise (fun a b => strLe (actionSeg a) (actionSeg b) = true)
      [cfgGetNs, cfgListNs] := by
  apply C1_amended.2.2 cfgGroupNode "namespace" [cfgGetNs, cfgListNs]
  rw [show collect_resources_across_actions cfgGroupNode =
        [("namespace", [cfgGetNs, cfgListNs])] from rfl]
  exact List.mem_singleton.mpr rfl

/-- C9 counterexample: declaring c nested in the parent's subcommands versus
declaring it as a top-level sibling does not produce identical trees - the
parent node's stored descriptor still contains (or lacks) c in its
subcommands field. -/
theorem C9_counterexample :
    add_command root0 parentWithSub ≠
      add_command (add_command root0 parentNoSub) subC := by
  intro h
  have h1 : commandAt (add_command root0 parentWithSub) ["grp"] =
      some parentWithSub := rfl
  rw [h] at h1
  have h2 : commandAt (add_command (add_command root0 parentNoSub) subC) ["grp"] =
      some parentNoSub := rfl
  rw [h2] at h1
  injection h1 with h3
  simp [parentNoSub, parentWithSub] at h3

/-- C9 amended: up to erasing the subcommands field of every stored
descriptor, inserting a parent whose subcommands end with c equals inserting
the parent without c and then inserting c at top level. -/
theorem C9_amended (t : CommandTree) (p : List String) (u s l e : String)
    (al : List String) (fl : List Flag) (subs : List Command) (c : Command) :
    eraseTree (add_command t (Command.mk p u s l e al fl (subs ++ [c]))) =
      eraseTree (add_command (add_command t (Command.mk p u s l e al fl subs)) c) := by
  rw [eraseTree_add_command, eraseTree_add_command, eraseTree_add_command]
  simp only [addCommandE]
  rw [addSubsE_append]

/-- C7: a terminal (childless) node carrying a command renders as a directory
entry with an index page when the command's path depth is at most 2, and as a
standalone flat .md reference when the depth is at least 3. -/
theorem C7_depth_leaf_rule (parent nm : String) (node : CommandTree) (c : Command)
    (hch : node.children = []) (hc : node.command = some c) :
    (c.path.length ≤ 2 →
        build_child_nav parent nm node =
          .leaf (to_human_readable nm)
            ("commands/" ++ (parent ++ "/" ++ nm) ++ "/index.md"))
    ∧ (3 ≤ c.path.length →
        build_child_nav parent nm node =
          .leaf (to_human_readable nm)
            ("commands/" ++ (parent ++ "/" ++ nm) ++ ".md")) := by
  obtain ⟨n, cm, ch⟩ := node
  simp only [CommandTree.children] at hch
  simp only [CommandTree.command] at hc
  subst hch hc
  constructor
  · intro hle
    simp [build_child_nav, hle]
  · intro hge
    have hnle : ¬ c.path.length ≤ 2 := by omega
    simp [build_child_nav, hnle]

/-- Witness for C7: path ["api-endpoint","control"] (depth 2) gives a
directory-style index entry; path ["configuration","list","namespace"]
(depth 3) gives a standalone file reference. -/
theorem C7_depth_leaf_rule_witness :
    build_child_nav "api-endpoint" "control"
        (.mk "control" (some (mkCmd ["api-endpoint", "control"])) []) =
      .leaf "Control" "commands/api-endpoint/control/index.md"
    ∧ build_child_nav "configuration/list" "namespace"
        (.mk "namespace" (some cfgListNs) []) =
      .leaf "Namespace" "commands/configuration/list/namespace.md" := by
  constructor
  · exact ((C7_depth_leaf_rule "api-endpoint" "control"
      (.mk "control" (some (mkCmd ["api-endpoint", "control"])) [])
      (mkCmd ["api-endpoint", "control"]) rfl rfl).1 (by decide)).trans rfl
  · exact ((C7_depth_leaf_rule "configuration/list" "namespace"
      (.mk "namespace" (some cfgListNs) [])
      cfgListNs rfl rfl).2 (by decide)).trans rfl

/-- C8 counterexample: a nested childless node with no assigned command
renders as a flat .md reference, not as an index page entry - only top-level
childless groups always get index pages. -/
theorem C8_counterexample :
    build_child_nav "configuration" "widget" (.mk "widget" none []) =
      .leaf "Widget" "commands/configuration/widget.md"
    ∧ ("commands/configuration/widget.md" : String) ≠
        "commands/configuration/widget/index.md" := by
  constructor
  · simp only [build_child_nav]
    rfl
  · decide

/-- C8 amended: a childless top-level group always maps to its index page
(command or not), while a nested childless node without a command maps to a
flat .md reference (the index form there needs a command of depth at most
2). -/
theorem C8_amended (apiMap : List (String × String)) (nm : String)
    (node : CommandTree) (hch : node.children = []) :
    build_nav_tree apiMap nm node =
      .leaf (to_human_readable nm) ("commands/" ++ nm ++ "/index.md")
    ∧ ∀ (parent cname : String) (cnode : CommandTree),
        cnode.children = [] → cnode.command = none →
        build_child_nav parent cname cnode =
          .leaf (to_human_readable cname)
            ("commands/" ++ (parent ++ "/" ++ cname) ++ ".md") := by
  constructor
  · obtain ⟨n, cm, ch⟩ := node
    simp only [CommandTree.children] at hch
    subst hch
    simp [build_nav_tree]
  · intro parent cname cnode hch2 hcm
    obtain ⟨n, cm, ch⟩ := cnode
    simp only [CommandTree.children] at hch2
    simp only [CommandTree.command] at hcm
    subst hch2 hcm
    simp [build_child_nav]

/-- Witness for C8 amended: the childless "completion" group maps to its index
page, and a nested childless command-less "widget" node maps to a flat
file. -/
theorem C8_amended_witness :
    build_nav_tree [] "completion" (.mk "completion" none []) =
      .leaf (to_human_readable "completion") ("commands/" ++ "completion" ++ "/index.md")
    ∧ build_child_nav "configuration" "widget" (.mk "widget" none []) =
      .leaf (to_human_readable "widget")
        ("commands/" ++ ("configuration" ++ "/" ++ "widget") ++ ".md") := by
  have h := C8_amended [] "completion" (.mk "completion" none []) rfl
  exact ⟨h.1, h.2 "configuration" "widget" (.mk "widget" none []) rfl rfl⟩

end Xcsh
